import Mathlib

/-!
Verification of the rich-girl-stock-optimization repository against its
design specification.

The repository ships a React frontend (src/recentbackup/frontend/src/App.js,
src/recentbackup/frontend/src/components/PortfolioCard.js, the latter file also
holding the PerformanceChart component) and a README; the analytical backend
described by the specification (return transformer, correlation graph builder,
centrality ranker, portfolio selector) is not present in the source tree, so it
is modelled here directly from the specification text.  The frontend components
are embedded from their JavaScript source.
-/

namespace RichGirls

/-! ## JavaScript value model (frontend)

JavaScript numeric expressions in the frontend can see three kinds of values:
`undefined` (a missing object field), `NaN` (arithmetic on `undefined`), and a
proper number.  Arithmetic on `undefined` or `NaN` yields `NaN`; `undefined`,
`NaN` and `0` are falsy for the `||` operator; `toFixed` is defined on any
number (including `NaN`, where it renders the string "NaN") but throws a
TypeError on `undefined`. -/

inductive JsVal (α : Type) where
  | undef : JsVal α
  | nan : JsVal α
  | num : α → JsVal α
deriving DecidableEq

/-- Reading an object field: a present field is a number, an absent one is
`undefined`. -/
def jsOfField {α : Type} : Option α → JsVal α
  | none => JsVal.undef
  | some q => JsVal.num q

/-- JavaScript multiplication by a constant: `undefined * k` and `NaN * k`
are `NaN`. -/
def jsMul {α : Type} [Mul α] (v : JsVal α) (k : α) : JsVal α :=
  match v with
  | JsVal.num q => JsVal.num (q * k)
  | _ => JsVal.nan

/-- JavaScript truthiness of a numeric value: `undefined`, `NaN` and `0` are
falsy. -/
def jsTruthy {α : Type} [DecidableEq α] [Zero α] : JsVal α → Bool
  | JsVal.undef => false
  | JsVal.nan => false
  | JsVal.num q => decide (q ≠ 0)

/-- The JavaScript `||` operator on a numeric left operand. -/
def jsOr {α : Type} [DecidableEq α] [Zero α] (v d : JsVal α) : JsVal α :=
  if jsTruthy v then v else d

/-- Rendering of `x.toFixed(2)` for a proper number, modelled over `ℚ`:
round to hundredths and print with exactly two decimal places. -/
def toFixed2 (q : ℚ) : String :=
  let m : ℤ := round (q * 100)
  let a : ℕ := m.natAbs
  (if m < 0 then ("-") else ("")) ++ toString (a / 100) ++ (".") ++
    (if a % 100 < 10 then ("0") else ("")) ++ toString (a % 100)

/-- `v.toFixed(2)` on a JavaScript value: throws (`none`) on `undefined`,
renders "NaN" on `NaN`, renders the number otherwise. -/
def jsToFixed2 : JsVal ℚ → Option String
  | JsVal.undef => none
  | JsVal.nan => some ("NaN")
  | JsVal.num q => some (toFixed2 q)

/-! ## Frontend data shapes

The frontend's view of the fetched `/api/analysis/` JSON: every field may be
absent (the components guard the field paths with `?.` and `||` defaults). -/

structure JsPerf (α : Type) where
  average_return : Option α
  volatility : Option α
  sharpe_ratio : Option α
deriving DecidableEq

structure JsPortfolios where
  central_portfolio : Option (List String)
  peripheral_portfolio : Option (List String)
deriving DecidableEq

structure JsPerformance (α : Type) where
  central : Option (JsPerf α)
  peripheral : Option (JsPerf α)
deriving DecidableEq

structure JsResponse (α : Type) where
  portfolios : Option JsPortfolios
  performance : Option (JsPerformance α)
deriving DecidableEq

/-- The empty JavaScript object `{}` read as a performance record: every
field access on it yields `undefined`. -/
def emptyJsPerf {α : Type} : JsPerf α := ⟨none, none, none⟩

/-! App.js lines 52-62: the props handed to the two PortfolioCards.
`stocks={data?.portfolios?.central_portfolio || []}` and
`performance={data?.performance?.central || {}}` (and the peripheral twins). -/

def appCentralStocks {α : Type} (d : Option (JsResponse α)) : List String :=
  ((d.bind JsResponse.portfolios).bind JsPortfolios.central_portfolio).getD []

def appPeripheralStocks {α : Type} (d : Option (JsResponse α)) : List String :=
  ((d.bind JsResponse.portfolios).bind JsPortfolios.peripheral_portfolio).getD []

def appCentralPerf {α : Type} (d : Option (JsResponse α)) : JsPerf α :=
  ((d.bind JsResponse.performance).bind JsPerformance.central).getD emptyJsPerf

def appPeripheralPerf {α : Type} (d : Option (JsResponse α)) : JsPerf α :=
  ((d.bind JsResponse.performance).bind JsPerformance.peripheral).getD emptyJsPerf

/-! App.js lines 69-70: the PerformanceChart props carry no `|| {}` default. -/

def appChartCentral {α : Type} (d : Option (JsResponse α)) : Option (JsPerf α) :=
  (d.bind JsResponse.performance).bind JsPerformance.central

def appChartPeripheral {α : Type} (d : Option (JsResponse α)) : Option (JsPerf α) :=
  (d.bind JsResponse.performance).bind JsPerformance.peripheral

/-! ## PortfolioCard (PortfolioCard.js lines 14-33)

The card renders three secondary strings:
`(performance.average_return * 100).toFixed(2)` with a "%" suffix,
`(performance.volatility * 100).toFixed(2)` with a "%" suffix, and
`performance.sharpe_ratio.toFixed(2)`.  Rendering the whole card fails
(`none`) exactly when one of the three `toFixed` calls throws. -/

def renderPortfolioCard (p : JsPerf ℚ) : Option (String × String × String) :=
  match jsToFixed2 (jsMul (jsOfField p.average_return) 100),
        jsToFixed2 (jsMul (jsOfField p.volatility) 100),
        jsToFixed2 (jsOfField p.sharpe_ratio) with
  | some a, some v, some s => some (a ++ ("%"), v ++ ("%"), s)
  | _, _, _ => none

/-! ## PerformanceChart (PortfolioCard.js lines 54-95) -/

structure ChartRow where
  name : String
  Central : JsVal ℚ
  Peripheral : JsVal ℚ
deriving DecidableEq

/-- A scaled chart cell, `perf?.field * 100 || 0` (lines 58-59, 63-64). -/
def chartCellScaled (p : Option (JsPerf ℚ)) (f : JsPerf ℚ → Option ℚ) : JsVal ℚ :=
  jsOr (jsMul (jsOfField (p.bind f)) 100) (JsVal.num 0)

/-- An unscaled chart cell, `perf?.field || 0` (lines 68-69). -/
def chartCellRaw (p : Option (JsPerf ℚ)) (f : JsPerf ℚ → Option ℚ) : JsVal ℚ :=
  jsOr (jsOfField (p.bind f)) (JsVal.num 0)

/-- The `data` array of PerformanceChart (lines 55-71). -/
def performanceChartData (c p : Option (JsPerf ℚ)) : List ChartRow :=
  [⟨("Average Return"), chartCellScaled c JsPerf.average_return,
      chartCellScaled p JsPerf.average_return⟩,
   ⟨("Volatility"), chartCellScaled c JsPerf.volatility,
      chartCellScaled p JsPerf.volatility⟩,
   ⟨("Sharpe Ratio"), chartCellRaw c JsPerf.sharpe_ratio,
      chartCellRaw p JsPerf.sharpe_ratio⟩]

/-- The numeric payload of a chart cell (chart cells are always proper
numbers: the `|| 0` default replaces `NaN` and `0`). -/
def jsNumVal : JsVal ℚ → ℚ
  | JsVal.num q => q
  | _ => 0

/-- The bar value the tooltip compares against: `data[2].Central`, the central
portfolio's Sharpe-ratio cell. -/
def centralSharpeCell (c p : Option (JsPerf ℚ)) : JsVal ℚ :=
  ((performanceChartData c p).getD 2 ⟨(""), JsVal.num 0, JsVal.num 0⟩).Central

/-- The tooltip formatter (line 88):
`(value) => value.toFixed(2) + (value !== data[2].Central ? '%' : '')`. -/
def tooltipText (c p : Option (JsPerf ℚ)) (value : ℚ) : String :=
  toFixed2 value ++
    (if JsVal.num value = centralSharpeCell c p then ("") else ("%"))

/-! ## Backend analytical core

The analytical backend (Django side) is absent from the source tree; every
definition below is modelled from the specification text (sections 3, 4, 6
and 7 of the spec). -/

/-- Modelled from the spec: the missing Return Transformer (spec 4.1) applied
to one price series; `return[t] = ln(price[t] / price[t-1])`, one fewer
observation than the price series. -/
noncomputable def returnSeries (p : List ℚ) : List ℝ :=
  (p.zip p.tail).map (fun q => Real.log ((q.2 : ℝ) / (q.1 : ℝ)))

/-- Modelled from the spec: the missing Return Transformer (spec 4.1) on a
whole PriceTable, ticker by ticker. -/
noncomputable def returnTable (pt : List (String × List ℚ)) : List (String × List ℝ) :=
  pt.map (fun s => (s.1, returnSeries s.2))

/-- Arithmetic mean of a series (empty series give `0/0 = 0`). -/
noncomputable def mean (l : List ℝ) : ℝ := l.sum / l.length

/-- Deviation of the `t`-th observation from the series mean. -/
noncomputable def dev (x : List ℝ) (t : ℕ) : ℝ := x.getD t 0 - mean x

/-- Modelled from the spec: centered cross-product sum of two aligned return
series, the numerator of the missing Pearson correlation (spec 4.2). -/
noncomputable def cov (x y : List ℝ) : ℝ :=
  ∑ t ∈ Finset.range (min x.length y.length), dev x t * dev y t

/-- Centered sum of squares of a series (the unnormalised variance; the
normalisations cancel in the Pearson quotient). -/
noncomputable def svar (x : List ℝ) : ℝ := cov x x

/-- Modelled from the spec: the missing Pearson correlation coefficient of
two aligned return series (spec 4.2). -/
noncomputable def corr (x y : List ℝ) : ℝ :=
  cov x y / (Real.sqrt (svar x) * Real.sqrt (svar y))

open Classical in
/-- Modelled from the spec: the missing correlation computation with the
degenerate-series policy of spec 4.2 — a zero-variance series makes the pair's
correlation 0 rather than undefined. -/
noncomputable def corrSafe (x y : List ℝ) : ℝ :=
  if svar x = 0 ∨ svar y = 0 then 0 else corr x y

/-- Modelled from the spec: the missing CorrelationMatrix (spec 3), indexed by
ticker positions in the return table. -/
noncomputable def corrMatrix (rt : List (List ℝ)) (i j : ℕ) : ℝ :=
  corrSafe (rt.getD i []) (rt.getD j [])

/-- Modelled from the spec: the missing distance transform
`distance(i,j) = sqrt(2 * (1 - correlation(i,j)))` (spec 4.2). -/
noncomputable def distance (c : ℝ) : ℝ := Real.sqrt (2 * (1 - c))

/-- Modelled from the spec: the missing graph edge-weight matrix (spec 4.2). -/
noncomputable def distMatrix (rt : List (List ℝ)) (i j : ℕ) : ℝ :=
  distance (corrMatrix rt i j)

/-! ### Minimum-spanning-tree filter (spec 4.2, Prim's algorithm)

The tree is grown from a root: at each step the candidate edges run from a
visited node to an unvisited one, and the minimum-weight candidate is added,
ties broken by the fixed lexicographic order of the candidate enumeration
(`List.argmin` keeps the first minimum). -/

/-- Modelled from the spec: the candidate edges of one Prim step over the
complete graph — pairs whose first node is already in the tree and whose
second is not, enumerated in lexicographic node order. -/
def candPairs (n : ℕ) (vis : List (Fin n)) : List (Fin n × Fin n) :=
  ((List.finRange n).product (List.finRange n)).filter
    (fun e => decide (e.1 ∈ vis ∧ e.2 ∉ vis))

/-- Modelled from the spec: one step of the missing MST filter — add the
minimum-weight candidate edge and its new endpoint, if any candidate exists. -/
def primStep {n : ℕ} {W : Type} [LinearOrder W] (w : Fin n → Fin n → W)
    (st : List (Fin n) × List (Fin n × Fin n)) : List (Fin n) × List (Fin n × Fin n) :=
  match (candPairs n st.1).argmin (fun e => w e.1 e.2) with
  | some e => (st.1 ++ [e.2], st.2 ++ [e])
  | none => st

/-- Modelled from the spec: `k` Prim steps from a single-root tree. -/
def primRun {n : ℕ} {W : Type} [LinearOrder W] (w : Fin n → Fin n → W)
    (root : Fin n) : ℕ → List (Fin n) × List (Fin n × Fin n)
  | 0 => ([root], [])
  | Nat.succ k => primStep w (primRun w root k)

/-- Modelled from the spec: the missing MST filter — the `n - 1` edges kept
after running Prim's algorithm to completion (spec 4.2). -/
def mstEdges {n : ℕ} {W : Type} [LinearOrder W] (w : Fin n → Fin n → W)
    (root : Fin n) : List (Fin n × Fin n) :=
  (primRun w root (n - 1)).2

/-! ### Graph-shape predicates for the filtered Graph (spec 3) -/

/-- Undirected adjacency induced by an edge list. -/
def adjE {n : ℕ} (E : List (Fin n × Fin n)) (a b : Fin n) : Prop :=
  (a, b) ∈ E ∨ (b, a) ∈ E

/-- Reachability along an edge list. -/
def ReachE {n : ℕ} (E : List (Fin n × Fin n)) : Fin n → Fin n → Prop :=
  Relation.ReflTransGen (adjE E)

/-- Every node reachable from every other. -/
def ConnectedE {n : ℕ} (E : List (Fin n × Fin n)) : Prop :=
  ∀ a b : Fin n, ReachE E a b

/-- Acyclicity of an edge list, by the bridge characterisation of forests:
a graph is a forest exactly when removing any one edge disconnects that
edge's endpoints.  (This also rules out self-loops and repeated edges, which
reconnect trivially.) -/
def AcyclicE {n : ℕ} (E : List (Fin n × Fin n)) : Prop :=
  ∀ e ∈ E, ¬ ReachE (E.erase e) e.1 e.2

/-- The simple graph induced by an edge list (self-loops discarded), used to
state the filtered Graph's tree shape in Mathlib's standard vocabulary. -/
def graphOfEdges {n : ℕ} (E : List (Fin n × Fin n)) : SimpleGraph (Fin n) where
  Adj a b := a ≠ b ∧ adjE E a b
  symm := fun _ _ h => ⟨h.1.symm, Or.symm h.2⟩
  loopless := fun _ h => h.1 rfl

/-- The tree-growing invariant of Prim runs: the visited list grows from the
root, one fresh endpoint per added edge, each edge linking an already visited
vertex to the fresh one. -/
inductive Build {n : ℕ} (root : Fin n) : List (Fin n) → List (Fin n × Fin n) → Prop where
  | base : Build root [root] []
  | grow {vis E u v} : Build root vis E → u ∈ vis → v ∉ vis →
      Build root (vis ++ [v]) (E ++ [(u, v)])

/-! ### Centrality Ranker (spec 4.3) -/

/-- Modelled from the spec: the missing degree-centrality score — the number
of MST edges incident to a node (spec 4.3, the minimal viable choice). -/
def degScore {n : ℕ} (E : List (Fin n × Fin n)) (i : Fin n) : ℕ :=
  E.countP (fun e => decide (e.1 = i ∨ e.2 = i))

/-- Modelled from the spec: the ranking order of spec 4.3 — descending
centrality score, ties broken by ticker symbol ascending. -/
def rankLE (a b : String × ℕ) : Bool :=
  decide (b.2 < a.2 ∨ (a.2 = b.2 ∧ a.1 ≤ b.1))

/-- Modelled from the spec: the missing Centrality Ranker's total order over
(ticker, score) pairs (spec 4.3). -/
def rankSort (l : List (String × ℕ)) : List (String × ℕ) := l.mergeSort rankLE

/-! ### Portfolio Selector & Evaluator (spec 4.4) and error taxonomy (spec 7) -/

inductive PipelineError where
  | invalidInputError
  | degenerateInputError
  | insufficientDataError
deriving DecidableEq

/-- Modelled from the spec: the missing Portfolio Selector (spec 4.4) —
`central` is the top-k of the ranking, `peripheral` the bottom-k, and
`2k > n` fails with `InsufficientDataError`. -/
def selectPortfolios (ranked : List String) (k : ℕ) :
    Except PipelineError (List String × List String) :=
  if 2 * k ≤ ranked.length then
    Except.ok (ranked.take k, ranked.drop (ranked.length - k))
  else Except.error PipelineError.insufficientDataError

structure PerformanceMetrics where
  average_return : ℝ
  volatility : ℝ
  sharpe_ratio : ℝ

structure Portfolios where
  central_portfolio : List String
  peripheral_portfolio : List String

structure Performance where
  central : PerformanceMetrics
  peripheral : PerformanceMetrics

/-- Modelled from the spec: the missing response object of spec 6. -/
structure AnalysisResponse where
  portfolios : Portfolios
  performance : Performance

/-- Modelled from the spec: the per-period equally-weighted pooled return
series of a portfolio (spec 4.4). -/
noncomputable def portfolioReturnSeries (rt : List (String × List ℝ))
    (members : List String) : List ℝ :=
  let sel := rt.filter (fun s => members.contains s.1)
  (List.range ((sel.headD (("") , [])).2.length)).map
    (fun t => mean (sel.map (fun s => s.2.getD t 0)))

open Classical in
/-- Modelled from the spec: the missing Evaluator's PerformanceMetrics
(spec 4.4); sample standard deviation, risk-free rate 0, and the
zero-volatility Sharpe policy fixed as `sharpe_ratio = 0`. -/
noncomputable def perfMetrics (rt : List (String × List ℝ))
    (members : List String) : PerformanceMetrics :=
  let s := portfolioReturnSeries rt members
  let vol := Real.sqrt (svar s / ((s.length - 1 : ℕ) : ℝ))
  { average_return := mean s
    volatility := vol
    sharpe_ratio := if vol = 0 then 0 else mean s / vol }

open Classical in
/-- Modelled from the spec: the missing full analysis pipeline — validation
(spec 7), returns, correlation, MST filter, degree centrality, ranking,
selection and evaluation, producing the response object of spec 6. -/
noncomputable def runPipeline (pt : List (String × List ℚ)) (k : ℕ) :
    Except PipelineError AnalysisResponse :=
  if h : pt.length < 2 then Except.error PipelineError.degenerateInputError
  else if ¬ (∀ s ∈ pt, s.2.length = (pt.headD (("") , [])).2.length) then
    Except.error PipelineError.invalidInputError
  else if ¬ (∀ s ∈ pt, ∀ x ∈ s.2, 0 < x) then
    Except.error PipelineError.invalidInputError
  else
    let rt := returnTable pt
    let series := rt.map Prod.snd
    if ∃ i j : Fin pt.length, i ≠ j ∧ svar (series.getD i []) = 0 ∧
        svar (series.getD j []) = 0 then
      Except.error PipelineError.degenerateInputError
    else
      let w : Fin pt.length → Fin pt.length → ℝ :=
        fun i j => distMatrix series (i : ℕ) (j : ℕ)
      let root : Fin pt.length := ⟨0, by omega⟩
      let E := mstEdges w root
      let scored := (List.finRange pt.length).map
        (fun i => ((pt.getD i.val (("") , [])).1, degScore E i))
      let names := (rankSort scored).map Prod.fst
      match selectPortfolios names k with
      | Except.ok c_p =>
          Except.ok
            { portfolios :=
                { central_portfolio := c_p.1, peripheral_portfolio := c_p.2 }
              performance :=
                { central := perfMetrics rt c_p.1
                  peripheral := perfMetrics rt c_p.2 } }
      | Except.error e => Except.error e

/-! ### The backend response as the frontend sees it (spec 6) -/

/-- A backend PerformanceMetrics record serialised for the frontend: all
three fields present. -/
def toJsPerf (m : PerformanceMetrics) : JsPerf ℝ :=
  ⟨some m.average_return, some m.volatility, some m.sharpe_ratio⟩

/-- A backend response serialised for the frontend: all field paths present. -/
def toJsResponse (r : AnalysisResponse) : JsResponse ℝ :=
  { portfolios := some ⟨some r.portfolios.central_portfolio,
      some r.portfolios.peripheral_portfolio⟩
    performance := some ⟨some (toJsPerf r.performance.central),
      some (toJsPerf r.performance.peripheral)⟩ }

/-! ## Shared helper lemmas -/

/-- A `|| 0`-guarded JavaScript value is always a proper number. -/
lemma jsOr_num_default (v : JsVal ℚ) (d : ℚ) :
    ∃ x, jsOr v (JsVal.num d) = JsVal.num x := by
  cases v with
  | undef => exact ⟨d, rfl⟩
  | nan => exact ⟨d, rfl⟩
  | num q =>
      by_cases h : q = 0
      · exact ⟨d, by simp [jsOr, jsTruthy, h]⟩
      · exact ⟨q, by simp [jsOr, jsTruthy, h]⟩

/-- Every scaled chart cell is a proper number. -/
lemma chartCellScaled_num (po : Option (JsPerf ℚ)) (f : JsPerf ℚ → Option ℚ) :
    ∃ x, chartCellScaled po f = JsVal.num x :=
  jsOr_num_default _ _

/-- Every unscaled chart cell is a proper number. -/
lemma chartCellRaw_num (po : Option (JsPerf ℚ)) (f : JsPerf ℚ → Option ℚ) :
    ∃ x, chartCellRaw po f = JsVal.num x :=
  jsOr_num_default _ _

/-- `data[2].Central` is the central Sharpe-ratio cell. -/
lemma centralSharpeCell_eq (c p : Option (JsPerf ℚ)) :
    centralSharpeCell c p = chartCellRaw c JsPerf.sharpe_ratio := rfl

/-! ## Claim theorems: frontend -/

/-- C8 counterexample: a performance prop whose `sharpe_ratio` is the number 0
but whose `average_return` and `volatility` fields are absent still renders
without error (the missing fields render as "NaN%"), refuting the claim that
rendering without error requires all three fields to be numeric. -/
theorem c8_counterexample :
    (renderPortfolioCard ⟨none, none, some 0⟩).isSome = true ∧
      (⟨none, none, some 0⟩ : JsPerf ℚ).average_return = none ∧
      (⟨none, none, some 0⟩ : JsPerf ℚ).volatility = none := by
  refine ⟨?_, rfl, rfl⟩
  simp [renderPortfolioCard, jsToFixed2, jsMul, jsOfField]

/-- C8 (amended): PortfolioCard renders without error only when its
`performance.sharpe_ratio` field is numeric (a missing `average_return` or
`volatility` renders as "NaN%" without throwing); App passes the empty object
as the default when the fetched response lacks `performance.central` or
`performance.peripheral`, and on that input
`performance.sharpe_ratio.toFixed(2)` throws, so rendering fails. -/
theorem c8_render_requires_sharpe :
    (∀ p : JsPerf ℚ, (renderPortfolioCard p).isSome = true →
        p.sharpe_ratio.isSome = true) ∧
    (∀ d : Option (JsResponse ℚ),
        (d.bind JsResponse.performance).bind JsPerformance.central = none →
          appCentralPerf d = emptyJsPerf ∧
            renderPortfolioCard (appCentralPerf d) = none) ∧
    (∀ d : Option (JsResponse ℚ),
        (d.bind JsResponse.performance).bind JsPerformance.peripheral = none →
          appPeripheralPerf d = emptyJsPerf ∧
            renderPortfolioCard (appPeripheralPerf d) = none) := by
  refine ⟨?_, ?_, ?_⟩
  · rintro ⟨a, v, s⟩ h
    cases s with
    | none =>
        exfalso
        cases a <;> cases v <;>
          simp [renderPortfolioCard, jsToFixed2, jsMul, jsOfField] at h
    | some q => rfl
  · intro d h
    have hp : appCentralPerf d = emptyJsPerf := by
      simp [appCentralPerf, h]
    exact ⟨hp, by
      rw [hp]
      simp [renderPortfolioCard, emptyJsPerf, jsToFixed2, jsMul, jsOfField]⟩
  · intro d h
    have hp : appPeripheralPerf d = emptyJsPerf := by
      simp [appPeripheralPerf, h]
    exact ⟨hp, by
      rw [hp]
      simp [renderPortfolioCard, emptyJsPerf, jsToFixed2, jsMul, jsOfField]⟩

/-- C8 witness: rendering succeeds with only a numeric `sharpe_ratio`, and the
App default empty object makes rendering fail. -/
theorem c8_witness :
    ((⟨none, none, some 1⟩ : JsPerf ℚ).sharpe_ratio.isSome = true) ∧
      renderPortfolioCard (appCentralPerf (none : Option (JsResponse ℚ))) = none :=
  ⟨c8_render_requires_sharpe.1 ⟨none, none, some 1⟩
      (by simp [renderPortfolioCard, jsToFixed2, jsMul, jsOfField]),
    (c8_render_requires_sharpe.2.1 none rfl).2⟩

/-- C9: the chart data construction is total — every bar cell is a proper
number — and a cell is 0 when the metric is absent (the scaled value is NaN)
or exactly 0, and otherwise carries the metric value, scaled by 100 for the
scaled cells (average return, volatility) and unscaled for the Sharpe cell. -/
theorem c9_chart_cells_total (c p : Option (JsPerf ℚ)) :
    (∀ row ∈ performanceChartData c p,
        (∃ x, row.Central = JsVal.num x) ∧ ∃ y, row.Peripheral = JsVal.num y) ∧
    (∀ (po : Option (JsPerf ℚ)) (f : JsPerf ℚ → Option ℚ),
      (po.bind f = none →
          chartCellScaled po f = JsVal.num 0 ∧ chartCellRaw po f = JsVal.num 0) ∧
      (po.bind f = some 0 →
          chartCellScaled po f = JsVal.num 0 ∧ chartCellRaw po f = JsVal.num 0) ∧
      (∀ q, po.bind f = some q → q ≠ 0 →
          chartCellScaled po f = JsVal.num (q * 100) ∧
            chartCellRaw po f = JsVal.num q)) := by
  constructor
  · intro row hrow
    have hmem : row ∈ performanceChartData c p := hrow
    simp only [performanceChartData, List.mem_cons, List.mem_singleton] at hmem
    rcases hmem with h | h | h | h
    · exact h ▸ ⟨chartCellScaled_num c _, chartCellScaled_num p _⟩
    · exact h ▸ ⟨chartCellScaled_num c _, chartCellScaled_num p _⟩
    · exact h ▸ ⟨chartCellRaw_num c _, chartCellRaw_num p _⟩
    · cases h
  · intro po f
    refine ⟨fun h => ?_, fun h => ?_, fun q h hq => ?_⟩
    · simp [chartCellScaled, chartCellRaw, h, jsOfField, jsMul, jsOr, jsTruthy]
    · simp [chartCellScaled, chartCellRaw, h, jsOfField, jsMul, jsOr, jsTruthy]
    · have h100 : q * 100 ≠ 0 := mul_ne_zero hq (by norm_num)
      simp [chartCellScaled, chartCellRaw, h, jsOfField, jsMul, jsOr, jsTruthy,
        h100, hq]

/-- C9 witness: a missing peripheral performance yields 0 cells, a nonzero
metric is scaled by 100 in the scaled cells and kept as is in the raw cell. -/
theorem c9_witness :
    (chartCellScaled (none : Option (JsPerf ℚ)) JsPerf.average_return =
        JsVal.num 0) ∧
      chartCellScaled (some ⟨some 2, none, none⟩) JsPerf.average_return =
        JsVal.num (2 * 100) ∧
      chartCellRaw (some ⟨none, none, some 2⟩) JsPerf.sharpe_ratio =
        JsVal.num 2 :=
  ⟨((c9_chart_cells_total none none).2 none JsPerf.average_return).1 rfl |>.1,
    ((c9_chart_cells_total none none).2 (some ⟨some 2, none, none⟩)
        JsPerf.average_return).2.2 2 rfl (by norm_num) |>.1,
    ((c9_chart_cells_total none none).2 (some ⟨none, none, some 2⟩)
        JsPerf.sharpe_ratio).2.2 2 rfl (by norm_num) |>.2⟩

/-- C10: the tooltip appends a "%" suffix to the two-decimal rendering exactly
when the hovered value differs from the central Sharpe-ratio cell
(`data[2].Central`); in particular the peripheral Sharpe value is rendered
with a "%" suffix whenever it differs from the central one. -/
theorem c10_tooltip_suffix (c p : Option (JsPerf ℚ)) (v : ℚ) :
    (v ≠ jsNumVal (centralSharpeCell c p) →
        tooltipText c p v = toFixed2 v ++ ("%")) ∧
    (v = jsNumVal (centralSharpeCell c p) → tooltipText c p v = toFixed2 v) ∧
    (jsNumVal (chartCellRaw p JsPerf.sharpe_ratio) ≠
        jsNumVal (centralSharpeCell c p) →
      tooltipText c p (jsNumVal (chartCellRaw p JsPerf.sharpe_ratio)) =
        toFixed2 (jsNumVal (chartCellRaw p JsPerf.sharpe_ratio)) ++ ("%")) := by
  have hnum : centralSharpeCell c p = JsVal.num (jsNumVal (centralSharpeCell c p)) := by
    rw [centralSharpeCell_eq]
    obtain ⟨x, hx⟩ := chartCellRaw_num c JsPerf.sharpe_ratio
    rw [hx]
    rfl
  have key : ∀ u : ℚ, u ≠ jsNumVal (centralSharpeCell c p) →
      tooltipText c p u = toFixed2 u ++ ("%") := by
    intro u hu
    rw [tooltipText, if_neg]
    rw [hnum]
    exact fun hc => hu (JsVal.num.inj hc)
  refine ⟨key v, fun hv => ?_, key _⟩
  rw [tooltipText, if_pos, String.append_empty]
  rw [hnum, hv]

/-- C10 witness: with no central performance the central Sharpe cell is 0, so
the value 1 is rendered with a "%" suffix and the value 0 without. -/
theorem c10_witness :
    tooltipText none none 1 = toFixed2 1 ++ ("%") ∧
      tooltipText none none 0 = toFixed2 0 :=
  ⟨(c10_tooltip_suffix none none 1).1 (by
      simp [centralSharpeCell_eq, chartCellRaw, jsOfField, jsOr, jsTruthy, jsNumVal]),
    (c10_tooltip_suffix none none 0).2.1 (by
      simp [centralSharpeCell_eq, chartCellRaw, jsOfField, jsOr, jsTruthy, jsNumVal])⟩

/-! ## Claim theorems: response shape -/

/-- C1: every successful pipeline run yields a response object carrying
`portfolios.central_portfolio`, `portfolios.peripheral_portfolio` (lists of
tickers) and `performance.central`, `performance.peripheral` (metric records),
and the App component's reads of exactly these field paths on the serialised
response recover exactly these fields. -/
theorem c1_response_shape_app_reads (pt : List (String × List ℚ)) (k : ℕ) :
    (runPipeline pt k).map (fun r =>
        (appCentralStocks (some (toJsResponse r)),
         appPeripheralStocks (some (toJsResponse r)),
         appCentralPerf (some (toJsResponse r)),
         appPeripheralPerf (some (toJsResponse r)),
         appChartCentral (some (toJsResponse r)),
         appChartPeripheral (some (toJsResponse r)))) =
      (runPipeline pt k).map (fun r =>
        (r.portfolios.central_portfolio,
         r.portfolios.peripheral_portfolio,
         toJsPerf r.performance.central,
         toJsPerf r.performance.peripheral,
         some (toJsPerf r.performance.central),
         some (toJsPerf r.performance.peripheral))) := by
  cases h : runPipeline pt k with
  | error e => rfl
  | ok r =>
      simp [Except.map, appCentralStocks, appPeripheralStocks, appCentralPerf,
        appPeripheralPerf, appChartCentral, appChartPeripheral, toJsResponse]

/-! ## Claim theorems: Return Transformer -/

/-- C3: on a valid PriceTable (positive prices, all series of length `T`),
each ticker's return series has exactly `T - 1` observations and
`return[t] = ln(price[t+1] / price[t])` (0-based, so the observation at
position `t` relates prices `t` and `t+1`). -/
theorem c3_return_table_shape (pt : List (String × List ℚ)) (T : ℕ)
    (_hpos : ∀ s ∈ pt, ∀ x ∈ s.2, 0 < x)
    (hlen : ∀ s ∈ pt, s.2.length = T) :
    ∀ s ∈ pt, (s.1, returnSeries s.2) ∈ returnTable pt ∧
      (returnSeries s.2).length = T - 1 ∧
      ∀ t, t + 1 < T →
        (returnSeries s.2).getD t 0 =
          Real.log (((s.2.getD (t + 1) 0 : ℚ) : ℝ) / ((s.2.getD t 0 : ℚ) : ℝ)) := by
  intro s hs
  have hp : s.2.length = T := hlen s hs
  refine ⟨?_, ?_, ?_⟩
  · rw [returnTable]
    exact List.mem_map_of_mem _ hs
  · simp only [returnSeries, List.length_map, List.length_zip, List.length_tail]
    omega
  · intro t ht
    have hzl : (s.2.zip s.2.tail).length = s.2.length - 1 := by
      simp only [List.length_zip, List.length_tail]
      omega
    have h2 : t < (returnSeries s.2).length := by
      simp only [returnSeries, List.length_map]
      rw [hzl]
      omega
    have h3 : t < (s.2.zip s.2.tail).length := by rw [hzl]; omega
    have h4 : t < s.2.tail.length := by rw [List.length_tail]; omega
    rw [List.getD_eq_getElem _ _ h2,
      List.getD_eq_getElem _ _ (show t + 1 < s.2.length by omega),
      List.getD_eq_getElem _ _ (show t < s.2.length by omega)]
    simp only [returnSeries, List.getElem_map, List.getElem_zip, List.getElem_tail]

/-- C3 witness: a two-ticker table with three positive aligned prices. -/
theorem c3_witness :
    (returnSeries [1, 2, 4]).length = 3 - 1 ∧
      (returnSeries [1, 2, 4]).getD 0 0 =
        Real.log ((((([1, 2, 4] : List ℚ).getD 1 0 : ℚ)) : ℝ) /
          ((([1, 2, 4] : List ℚ).getD 0 0 : ℚ) : ℝ)) := by
  have h := c3_return_table_shape [(("X"), [1, 2, 4]), (("Y"), [1, 3, 9])] 3
    (by decide) (by decide) ((("X"), [1, 2, 4])) (by simp)
  exact ⟨h.2.1, h.2.2 0 (by norm_num)⟩

/-! ## Claim theorems: Portfolio Selector -/

/-- C2: on a ranked universe of `n` distinct tickers, for `2k ≤ n` the
selector returns the top-k as `central` and the bottom-k as `peripheral`,
each of size exactly `k` and mutually disjoint, and for `2k > n` it fails
with `InsufficientDataError`. -/
theorem c2_selector (ranked : List String) (k : ℕ) (hnd : ranked.Nodup) :
    (2 * k ≤ ranked.length →
      selectPortfolios ranked k =
          Except.ok (ranked.take k, ranked.drop (ranked.length - k)) ∧
        (ranked.take k).length = k ∧
        (ranked.drop (ranked.length - k)).length = k ∧
        (ranked.take k).Disjoint (ranked.drop (ranked.length - k))) ∧
    (ranked.length < 2 * k →
      selectPortfolios ranked k = Except.error PipelineError.insufficientDataError) := by
  constructor
  · intro hk
    refine ⟨by rw [selectPortfolios, if_pos hk], ?_, ?_, ?_⟩
    · rw [List.length_take]
      omega
    · rw [List.length_drop]
      omega
    · exact List.disjoint_take_drop hnd (by omega)
  · intro hk
    rw [selectPortfolios, if_neg (by omega)]

/-- C2 witness: four distinct tickers with k = 2 split into the first two and
the last two; three tickers with k = 2 fail with `InsufficientDataError`. -/
theorem c2_witness :
    selectPortfolios [("A"), ("B"), ("C"), ("D")] 2 =
        Except.ok ([("A"), ("B")], [("C"), ("D")]) ∧
      ([("A"), ("B")] : List String).Disjoint [("C"), ("D")] ∧
      selectPortfolios [("A"), ("B"), ("C")] 2 =
        Except.error PipelineError.insufficientDataError := by
  have h := (c2_selector [("A"), ("B"), ("C"), ("D")] 2 (by decide)).1 (by decide)
  have h2 := (c2_selector [("A"), ("B"), ("C")] 2 (by decide)).2 (by decide)
  exact ⟨by simpa using h.1, h.2.2.2, h2⟩

/-! ## Correlation matrix lemmas -/

/-- Centered cross-product sums are symmetric. -/
lemma cov_comm (x y : List ℝ) : cov x y = cov y x := by
  rw [cov, cov, min_comm]
  exact Finset.sum_congr rfl (fun t _ => mul_comm _ _)

/-- The centered sum of squares is nonnegative. -/
lemma svar_nonneg (x : List ℝ) : 0 ≤ svar x := by
  rw [svar, cov, min_self]
  exact Finset.sum_nonneg (fun t _ => mul_self_nonneg _)

/-- Cauchy-Schwarz for the centered sums: `cov` squared is at most the
product of the variances. -/
lemma cov_sq_le (x y : List ℝ) : cov x y ^ 2 ≤ svar x * svar y := by
  have hcs := Finset.sum_mul_sq_le_sq_mul_sq
    (Finset.range (min x.length y.length)) (dev x) (dev y)
  have hx : ∑ t ∈ Finset.range (min x.length y.length), dev x t ^ 2 ≤ svar x := by
    rw [svar, cov, min_self]
    refine le_trans (le_of_eq (Finset.sum_congr rfl (fun t _ => pow_two (dev x t)))) ?_
    exact Finset.sum_le_sum_of_subset_of_nonneg
      (Finset.range_subset.mpr (min_le_left _ _))
      (fun t _ _ => mul_self_nonneg _)
  have hy : ∑ t ∈ Finset.range (min x.length y.length), dev y t ^ 2 ≤ svar y := by
    rw [svar, cov, min_self]
    refine le_trans (le_of_eq (Finset.sum_congr rfl (fun t _ => pow_two (dev y t)))) ?_
    exact Finset.sum_le_sum_of_subset_of_nonneg
      (Finset.range_subset.mpr (min_le_right _ _))
      (fun t _ _ => mul_self_nonneg _)
  have h0y : (0 : ℝ) ≤ ∑ t ∈ Finset.range (min x.length y.length), dev y t ^ 2 :=
    Finset.sum_nonneg (fun t _ => sq_nonneg _)
  calc cov x y ^ 2
      ≤ (∑ t ∈ Finset.range (min x.length y.length), dev x t ^ 2) *
          ∑ t ∈ Finset.range (min x.length y.length), dev y t ^ 2 := hcs
    _ ≤ svar x * svar y := mul_le_mul hx hy h0y (svar_nonneg x)

/-- Pearson correlation is symmetric. -/
lemma corr_comm (x y : List ℝ) : corr x y = corr y x := by
  rw [corr, corr, cov_comm, mul_comm]

/-- Pearson correlation of a nondegenerate series with itself is 1. -/
lemma corr_self (x : List ℝ) (hx : svar x ≠ 0) : corr x x = 1 := by
  rw [corr, Real.mul_self_sqrt (svar_nonneg x)]
  exact div_self hx

/-- Pearson correlation of nondegenerate series lies in `[-1, 1]`. -/
lemma abs_corr_le_one (x y : List ℝ) (hx : svar x ≠ 0) (hy : svar y ≠ 0) :
    |corr x y| ≤ 1 := by
  have hx0 : 0 < svar x := lt_of_le_of_ne (svar_nonneg x) (Ne.symm hx)
  have hy0 : 0 < svar y := lt_of_le_of_ne (svar_nonneg y) (Ne.symm hy)
  have hsx : 0 < Real.sqrt (svar x) := Real.sqrt_pos.mpr hx0
  have hsy : 0 < Real.sqrt (svar y) := Real.sqrt_pos.mpr hy0
  rw [corr, abs_div, abs_of_pos (mul_pos hsx hsy), div_le_one (mul_pos hsx hsy)]
  calc |cov x y| = Real.sqrt (cov x y ^ 2) := (Real.sqrt_sq_eq_abs _).symm
    _ ≤ Real.sqrt (svar x * svar y) := Real.sqrt_le_sqrt (cov_sq_le x y)
    _ = Real.sqrt (svar x) * Real.sqrt (svar y) :=
        Real.sqrt_mul (svar_nonneg x) _

/-- The guarded correlation is symmetric. -/
lemma corrSafe_comm (x y : List ℝ) : corrSafe x y = corrSafe y x := by
  rw [corrSafe, corrSafe]
  by_cases h : svar x = 0 ∨ svar y = 0
  · rw [if_pos h, if_pos (Or.symm h)]
  · rw [if_neg h, if_neg (fun hc => h (Or.symm hc)), corr_comm]

/-- The guarded correlation always lies in `[-1, 1]`. -/
lemma corrSafe_mem_Icc (x y : List ℝ) :
    corrSafe x y ∈ Set.Icc (-1 : ℝ) 1 := by
  rw [corrSafe]
  by_cases h : svar x = 0 ∨ svar y = 0
  · rw [if_pos h]
    constructor <;> norm_num
  · rw [if_neg h]
    push_neg at h
    exact abs_le.mp (abs_corr_le_one x y h.1 h.2)

/-! ## Claim theorems: correlation matrix and distance transform -/

/-- C4: over a ReturnTable whose series all have nonzero variance, the
correlation matrix is symmetric, carries exactly 1 on the diagonal, and every
entry lies in `[-1, 1]`. -/
theorem c4_correlation_matrix (rt : List (List ℝ))
    (h : ∀ s ∈ rt, svar s ≠ 0) (i j : ℕ) :
    corrMatrix rt i j = corrMatrix rt j i ∧
      (i < rt.length → corrMatrix rt i i = 1) ∧
      corrMatrix rt i j ∈ Set.Icc (-1 : ℝ) 1 := by
  refine ⟨corrSafe_comm _ _, fun hi => ?_, corrSafe_mem_Icc _ _⟩
  have hmem : rt.getD i [] ∈ rt := by
    rw [List.getD_eq_getElem _ _ hi]
    exact List.getElem_mem hi
  have hv : svar (rt.getD i []) ≠ 0 := h _ hmem
  rw [corrMatrix, corrSafe, if_neg (by tauto)]
  exact corr_self _ hv

/-- C7: every graph edge weight is `sqrt(2 * (1 - correlation))`; it lies in
`[0, 2]` whenever the correlation lies in `[-1, 1]`, and perfectly correlated
series (correlation exactly 1) get distance 0. -/
theorem c7_distance_transform (rt : List (List ℝ)) (i j : ℕ) :
    distMatrix rt i j = Real.sqrt (2 * (1 - corrMatrix rt i j)) ∧
      (corrMatrix rt i j ∈ Set.Icc (-1 : ℝ) 1 →
        distMatrix rt i j ∈ Set.Icc (0 : ℝ) 2) ∧
      (corrMatrix rt i j = 1 → distMatrix rt i j = 0) := by
  refine ⟨rfl, fun hc => ?_, fun hc => ?_⟩
  · constructor
    · exact Real.sqrt_nonneg _
    · rw [distMatrix, distance]
      calc Real.sqrt (2 * (1 - corrMatrix rt i j))
          ≤ Real.sqrt 4 := Real.sqrt_le_sqrt (by
            have := hc.1
            nlinarith)
        _ = 2 := by
            rw [show (4 : ℝ) = 2 ^ 2 by norm_num, Real.sqrt_sq (by norm_num)]
  · rw [distMatrix, distance, hc]
    norm_num

/-- C4 witness: a two-series return table with nondegenerate series. -/
theorem c4_witness :
    corrMatrix [[0, 1], [1, 0]] 0 1 = corrMatrix [[0, 1], [1, 0]] 1 0 ∧
      corrMatrix [[0, 1], [1, 0]] 0 0 = 1 ∧
      corrMatrix [[0, 1], [1, 0]] 0 1 ∈ Set.Icc (-1 : ℝ) 1 := by
  have hs1 : svar ([0, 1] : List ℝ) = 1 / 2 := by
    simp [svar, cov, dev, mean, Finset.sum_range_succ]
    norm_num
  have hs2 : svar ([1, 0] : List ℝ) = 1 / 2 := by
    simp [svar, cov, dev, mean, Finset.sum_range_succ]
    norm_num
  have hnz : ∀ s ∈ ([[0, 1], [1, 0]] : List (List ℝ)), svar s ≠ 0 := by
    intro s hs
    simp only [List.mem_cons, List.not_mem_nil, or_false] at hs
    rcases hs with h | h <;> rw [h]
    · rw [hs1]; norm_num
    · rw [hs2]; norm_num
  have h01 := c4_correlation_matrix [[0, 1], [1, 0]] hnz 0 1
  have h00 := c4_correlation_matrix [[0, 1], [1, 0]] hnz 0 0
  exact ⟨h01.1, h00.2.1 (by norm_num), h01.2.2⟩

/-- C7 witness: a perfectly self-correlated series has distance 0 and the
distance lies in `[0, 2]`. -/
theorem c7_witness :
    distMatrix [[0, 1]] 0 0 ∈ Set.Icc (0 : ℝ) 2 ∧ distMatrix [[0, 1]] 0 0 = 0 := by
  have hs : svar ([0, 1] : List ℝ) = 1 / 2 := by
    simp [svar, cov, dev, mean, Finset.sum_range_succ]
    norm_num
  have hc : corrMatrix [[0, 1]] 0 0 = 1 := by
    rw [corrMatrix]
    have hget : ([[0, 1]] : List (List ℝ)).getD 0 [] = [0, 1] := rfl
    rw [hget, corrSafe, if_neg (by rw [hs]; norm_num)]
    exact corr_self _ (by rw [hs]; norm_num)
  have h := c7_distance_transform [[0, 1]] 0 0
  exact ⟨h.2.1 (by rw [hc]; norm_num), h.2.2 hc⟩

/-! ## Minimum-spanning-tree lemmas -/

lemma Build.nodup {n : ℕ} {root : Fin n} {vis E} (h : Build root vis E) :
    vis.Nodup := by
  induction h with
  | base => simp
  | grow h hu hv ih => simp [List.nodup_append, ih, hv]

lemma Build.length_eq {n : ℕ} {root : Fin n} {vis E} (h : Build root vis E) :
    vis.length = E.length + 1 := by
  induction h with
  | base => rfl
  | grow h hu hv ih => simp [ih]

lemma Build.root_mem {n : ℕ} {root : Fin n} {vis E} (h : Build root vis E) :
    root ∈ vis := by
  induction h with
  | base => simp
  | grow h hu hv ih => exact List.mem_append_left _ ih

lemma Build.edge_mem {n : ℕ} {root : Fin n} {vis E} (h : Build root vis E) :
    ∀ e ∈ E, e.1 ∈ vis ∧ e.2 ∈ vis := by
  induction h with
  | base => simp
  | grow h hu hv ih =>
      intro e he
      rcases List.mem_append.mp he with he | he
      · obtain ⟨h1, h2⟩ := ih e he
        exact ⟨List.mem_append_left _ h1, List.mem_append_left _ h2⟩
      · simp only [List.mem_singleton] at he
        subst he
        exact ⟨List.mem_append_left _ hu, List.mem_append_right _ (by simp)⟩

lemma ReachE_mono {n : ℕ} {E F : List (Fin n × Fin n)} (hEF : E ⊆ F) {a b : Fin n}
    (h : ReachE E a b) : ReachE F a b :=
  Relation.ReflTransGen.mono (fun _ _ hxy => hxy.imp (@hEF _) (@hEF _)) h

lemma ReachE_symm {n : ℕ} {E : List (Fin n × Fin n)} {a b : Fin n}
    (h : ReachE E a b) : ReachE E b a :=
  Relation.ReflTransGen.symmetric (fun _ _ hxy => Or.symm hxy) h

lemma Build.reach_root {n : ℕ} {root : Fin n} {vis E} (h : Build root vis E) :
    ∀ x ∈ vis, ReachE E root x := by
  induction h with
  | base =>
      intro x hx
      simp only [List.mem_singleton] at hx
      subst hx
      exact Relation.ReflTransGen.refl
  | grow h hu hv ih =>
      intro x hx
      rcases List.mem_append.mp hx with hx | hx
      · exact ReachE_mono (List.subset_append_left _ _) (ih x hx)
      · simp only [List.mem_singleton] at hx
        subst hx
        exact Relation.ReflTransGen.tail
          (ReachE_mono (List.subset_append_left _ _) (ih _ hu))
          (Or.inl (List.mem_append_right _ (by simp)))

/-- A vertex touched by no edge of `E` is unreachable from anywhere else. -/
lemma not_reach_fresh {n : ℕ} {E : List (Fin n × Fin n)} {u v : Fin n}
    (hfresh : ∀ e ∈ E, e.1 ≠ v ∧ e.2 ≠ v) (hu : u ≠ v) : ¬ ReachE E u v := by
  intro h
  rcases Relation.ReflTransGen.cases_tail h with h1 | ⟨c, _, hc⟩
  · exact hu h1.symm
  · rcases hc with hc | hc
    · exact (hfresh _ hc).2 rfl
    · exact (hfresh _ hc).1 rfl

/-- Walks in a graph extended with one pendant edge at a fresh vertex `v`
either end at `v` coming through its unique neighbour `u`, or avoid `v`
entirely. -/
lemma reach_snoc_fresh {n : ℕ} {E : List (Fin n × Fin n)} {u v a b : Fin n}
    (hfresh : ∀ e ∈ E, e.1 ≠ v ∧ e.2 ≠ v) (hu : u ≠ v) (ha : a ≠ v)
    (h : ReachE (E ++ [(u, v)]) a b) :
    (b = v ∧ ReachE E a u) ∨ (b ≠ v ∧ ReachE E a b) := by
  have h2 : Relation.ReflTransGen (adjE (E ++ [(u, v)])) a b := h
  clear h
  induction h2 with
  | refl => exact Or.inr ⟨ha, Relation.ReflTransGen.refl⟩
  | tail hac hstep ih =>
      rcases hstep with hmem | hmem
      · rcases List.mem_append.mp hmem with hE | hsingle
        · have hcd := hfresh _ hE
          rcases ih with ⟨hcv, _⟩ | ⟨_, hr⟩
          · exact absurd hcv hcd.1
          · exact Or.inr ⟨hcd.2, hr.tail (Or.inl hE)⟩
        · simp only [List.mem_singleton, Prod.mk.injEq] at hsingle
          obtain ⟨hcu, hdv⟩ := hsingle
          subst hcu
          subst hdv
          rcases ih with ⟨hcv, _⟩ | ⟨_, hr⟩
          · exact absurd hcv hu
          · exact Or.inl ⟨rfl, hr⟩
      · rcases List.mem_append.mp hmem with hE | hsingle
        · have hcd := hfresh _ hE
          rcases ih with ⟨hcv, _⟩ | ⟨_, hr⟩
          · exact absurd hcv hcd.2
          · exact Or.inr ⟨hcd.1, hr.tail (Or.inr hE)⟩
        · simp only [List.mem_singleton, Prod.mk.injEq] at hsingle
          obtain ⟨hdu, hcv⟩ := hsingle
          subst hdu
          subst hcv
          rcases ih with ⟨_, hr⟩ | ⟨hcv, _⟩
          · exact Or.inr ⟨hu, hr⟩
          · exact absurd rfl hcv

/-- Every edge of a grown tree is a bridge. -/
lemma Build.bridge {n : ℕ} {root : Fin n} {vis E} (h : Build root vis E) :
    AcyclicE E := by
  induction h with
  | base => intro e he; cases he
  | @grow vis E u v h hu hv ih =>
      intro e he
      have hend := h.edge_mem
      have hu_ne : u ≠ v := fun hc => hv (hc ▸ hu)
      rcases List.mem_append.mp he with heE | hnew
      · have h1 : e.1 ∈ vis := (hend e heE).1
        have h2 : e.2 ∈ vis := (hend e heE).2
        rw [List.erase_append_left _ heE]
        intro hr
        have hfresh : ∀ e2 ∈ E.erase e, e2.1 ≠ v ∧ e2.2 ≠ v := by
          intro e2 he2
          have hm := hend e2 (List.erase_subset _ _ he2)
          exact ⟨fun hc => hv (hc ▸ hm.1), fun hc => hv (hc ▸ hm.2)⟩
        have ha : e.1 ≠ v := fun hc => hv (hc ▸ h1)
        rcases reach_snoc_fresh hfresh hu_ne ha hr with ⟨h2v, _⟩ | ⟨_, hr2⟩
        · exact hv (h2v ▸ h2)
        · exact ih e heE hr2
      · simp only [List.mem_singleton] at hnew
        subst hnew
        have hnotinE : (u, v) ∉ E := fun hc => hv (hend _ hc).2
        have herase : (E ++ [(u, v)]).erase (u, v) = E := by
          rw [List.erase_append_right _ hnotinE]
          simp
        show ¬ ReachE ((E ++ [(u, v)]).erase (u, v)) u v
        rw [herase]
        refine not_reach_fresh ?_ hu_ne
        intro e2 he2
        have hm := hend e2 he2
        exact ⟨fun hc => hv (hc ▸ hm.1), fun hc => hv (hc ▸ hm.2)⟩

lemma mem_candPairs {n : ℕ} {vis : List (Fin n)} {e : Fin n × Fin n} :
    e ∈ candPairs n vis ↔ e.1 ∈ vis ∧ e.2 ∉ vis := by
  obtain ⟨a, b⟩ := e
  simp [candPairs, List.mem_filter, List.pair_mem_product, List.mem_finRange]

lemma candPairs_ne_nil {n : ℕ} {vis : List (Fin n)} (hne : vis ≠ [])
    (hmiss : ∃ x : Fin n, x ∉ vis) : candPairs n vis ≠ [] := by
  obtain ⟨x, hx⟩ := hmiss
  obtain ⟨u, hu⟩ := List.exists_mem_of_ne_nil vis hne
  intro hnil
  have hm : (u, x) ∈ candPairs n vis := mem_candPairs.mpr ⟨hu, hx⟩
  rw [hnil] at hm
  cases hm

lemma candPairs_eq_nil {n : ℕ} {vis : List (Fin n)} (hall : ∀ x : Fin n, x ∈ vis) :
    candPairs n vis = [] := by
  rw [List.eq_nil_iff_forall_not_mem]
  intro e he
  exact (mem_candPairs.mp he).2 (hall e.2)

lemma exists_not_mem_of_length_lt {n : ℕ} {l : List (Fin n)} (hnd : l.Nodup)
    (hlen : l.length < n) : ∃ x : Fin n, x ∉ l := by
  by_contra hall
  push_neg at hall
  have hsub : Finset.univ ⊆ l.toFinset := fun x _ => List.mem_toFinset.mpr (hall x)
  have hcard := Finset.card_le_card hsub
  rw [List.toFinset_card_of_nodup hnd] at hcard
  simp only [Finset.card_univ, Fintype.card_fin] at hcard
  omega

lemma all_mem_of_length_eq {n : ℕ} {l : List (Fin n)} (hnd : l.Nodup)
    (hlen : l.length = n) : ∀ x : Fin n, x ∈ l := by
  intro x
  have hcard : l.toFinset.card = Fintype.card (Fin n) := by
    rw [List.toFinset_card_of_nodup hnd, hlen, Fintype.card_fin]
  have huniv := Finset.eq_univ_of_card _ hcard
  rw [← List.mem_toFinset, huniv]
  exact Finset.mem_univ x

lemma primStep_build {n : ℕ} {W : Type} [LinearOrder W] (w : Fin n → Fin n → W)
    (st : List (Fin n) × List (Fin n × Fin n)) {root : Fin n}
    (h : Build root st.1 st.2) :
    Build root (primStep w st).1 (primStep w st).2 := by
  unfold primStep
  cases harg : (candPairs n st.1).argmin (fun e => w e.1 e.2) with
  | none => exact h
  | some e =>
      have hmem := mem_candPairs.mp (List.argmin_mem harg)
      exact Build.grow h hmem.1 hmem.2

lemma primRun_build {n : ℕ} {W : Type} [LinearOrder W] (w : Fin n → Fin n → W)
    (root : Fin n) (k : ℕ) :
    Build root (primRun w root k).1 (primRun w root k).2 := by
  induction k with
  | zero => exact Build.base
  | succ k ih => exact primStep_build w _ ih

lemma primStep_of_full {n : ℕ} {W : Type} [LinearOrder W] (w : Fin n → Fin n → W)
    {st : List (Fin n) × List (Fin n × Fin n)} (hall : ∀ x : Fin n, x ∈ st.1) :
    primStep w st = st := by
  unfold primStep
  rw [candPairs_eq_nil hall]
  rfl

lemma primStep_grows {n : ℕ} {W : Type} [LinearOrder W] (w : Fin n → Fin n → W)
    {st : List (Fin n) × List (Fin n × Fin n)} {root : Fin n}
    (h : Build root st.1 st.2) (hlt : st.1.length < n) :
    (primStep w st).1.length = st.1.length + 1 := by
  have hmiss := exists_not_mem_of_length_lt h.nodup hlt
  have hne : candPairs n st.1 ≠ [] :=
    candPairs_ne_nil (List.ne_nil_of_mem h.root_mem) hmiss
  unfold primStep
  cases harg : (candPairs n st.1).argmin (fun e => w e.1 e.2) with
  | none => exact absurd (List.argmin_eq_none.mp harg) hne
  | some e => simp

lemma primRun_length {n : ℕ} {W : Type} [LinearOrder W] (w : Fin n → Fin n → W)
    (root : Fin n) (k : ℕ) :
    (primRun w root k).1.length = min (k + 1) n := by
  have hpos : 0 < n := root.pos
  induction k with
  | zero =>
      show ([root] : List (Fin n)).length = min 1 n
      simp
      omega
  | succ k ih =>
      have hb := primRun_build w root k
      by_cases hk : (primRun w root k).1.length < n
      · have := primStep_grows w hb hk
        show (primStep w (primRun w root k)).1.length = min (k + 1 + 1) n
        rw [this, ih]
        omega
      · have hle : (primRun w root k).1.length ≤ n := by
          have := hb.nodup.length_le_card
          simpa using this
        have heq : (primRun w root k).1.length = n := by omega
        have hall := all_mem_of_length_eq hb.nodup heq
        show (primStep w (primRun w root k)).1.length = min (k + 1 + 1) n
        rw [primStep_of_full w hall, heq]
        omega

lemma Build.edge_ne {n : ℕ} {root : Fin n} {vis E} (h : Build root vis E) :
    ∀ e ∈ E, e.1 ≠ e.2 := by
  induction h with
  | base => simp
  | @grow vis E u v h hu hv ih =>
      intro e he
      rcases List.mem_append.mp he with he | he
      · exact ih e he
      · simp only [List.mem_singleton] at he
        subst he
        show u ≠ v
        exact fun hc => hv (hc ▸ hu)

/-- Reachability in the simple graph minus one edge descends to reachability
over the edge list with that edge erased. -/
lemma reach_of_delete {n : ℕ} {E : List (Fin n × Fin n)} {a b : Fin n}
    (hr : ((graphOfEdges E) \ SimpleGraph.fromEdgeSet {s(a, b)}).Reachable a b) :
    ReachE (E.erase (a, b)) a b := by
  have h1 := (SimpleGraph.reachable_iff_reflTransGen _ _).mp hr
  refine Relation.ReflTransGen.mono ?_ h1
  intro x y hxy
  rw [SimpleGraph.sdiff_adj] at hxy
  obtain ⟨⟨hxyne, hadj⟩, hnot⟩ := hxy
  have hs : ¬ s(x, y) = s(a, b) := by
    intro hc
    exact hnot (by rw [SimpleGraph.fromEdgeSet_adj]; exact ⟨by simp [hc], hxyne⟩)
  rcases hadj with hm | hm
  · exact Or.inl ((List.mem_erase_of_ne
      (fun hc => hs (congrArg Sym2.mk hc))).mpr hm)
  · exact Or.inr ((List.mem_erase_of_ne
      (fun hc => hs (Sym2.eq_swap.trans (congrArg Sym2.mk hc)))).mpr hm)

/-- The grown tree, read as a simple graph, has no cycles. -/
lemma Build.graph_acyclic {n : ℕ} {root : Fin n} {vis E} (h : Build root vis E) :
    (graphOfEdges E).IsAcyclic := by
  rw [SimpleGraph.isAcyclic_iff_forall_adj_isBridge]
  intro v w hadj
  rw [SimpleGraph.isBridge_iff]
  refine ⟨hadj, ?_⟩
  intro hr
  obtain ⟨hne, hvw⟩ := hadj
  rcases hvw with hmem | hmem
  · exact h.bridge _ hmem (reach_of_delete hr)
  · have hswap : s(v, w) = s(w, v) := Sym2.eq_swap
    rw [hswap] at hr
    exact h.bridge _ hmem (reach_of_delete hr.symm)

/-- Edge-list reachability lifts to the simple graph. -/
lemma reachable_of_reachE {n : ℕ} {E : List (Fin n × Fin n)}
    (hne : ∀ e ∈ E, e.1 ≠ e.2) {a b : Fin n} (h : ReachE E a b) :
    (graphOfEdges E).Reachable a b := by
  rw [SimpleGraph.reachable_iff_reflTransGen]
  refine Relation.ReflTransGen.mono ?_ h
  intro x y hxy
  rcases hxy with hm | hm
  · exact ⟨hne _ hm, Or.inl hm⟩
  · exact ⟨(hne _ hm).symm, Or.inr hm⟩

/-! ## Claim theorems: MST filter -/

/-- C5: for every universe of `n ≥ 2` tickers and any edge-weight function,
the MST filter keeps exactly `n - 1` edges, the result is connected (every
node reachable from every other) and acyclic (every edge is a bridge; as a
simple graph it is a tree, connected and cycle-free, in Mathlib's sense). -/
theorem c5_mst_tree {n : ℕ} (hn : 2 ≤ n) {W : Type} [LinearOrder W]
    (w : Fin n → Fin n → W) (root : Fin n) :
    (mstEdges w root).length = n - 1 ∧ ConnectedE (mstEdges w root) ∧
      AcyclicE (mstEdges w root) ∧
      (graphOfEdges (mstEdges w root)).IsTree := by
  have hb := primRun_build w root (n - 1)
  have hlen : (primRun w root (n - 1)).1.length = n := by
    rw [primRun_length]
    omega
  have hedges : (mstEdges w root).length = n - 1 := by
    have := hb.length_eq
    rw [hlen] at this
    rw [mstEdges]
    omega
  have hall := all_mem_of_length_eq hb.nodup hlen
  have hconn : ConnectedE (mstEdges w root) := by
    intro a b
    exact Relation.ReflTransGen.trans
      (ReachE_symm (hb.reach_root a (hall a))) (hb.reach_root b (hall b))
  have hgconn : (graphOfEdges (mstEdges w root)).Connected := by
    have : Nonempty (Fin n) := ⟨root⟩
    exact SimpleGraph.Connected.mk
      (fun a b => reachable_of_reachE hb.edge_ne (hconn a b))
  exact ⟨hedges, hconn, hb.bridge, ⟨hgconn, hb.graph_acyclic⟩⟩

/-- C5 witness: a three-node universe with a concrete rational weight
function. -/
theorem c5_witness :
    (mstEdges (fun i j : Fin 3 => ((i : ℚ) + (j : ℚ))) 0).length = 3 - 1 ∧
      ConnectedE (mstEdges (fun i j : Fin 3 => ((i : ℚ) + (j : ℚ))) 0) ∧
      AcyclicE (mstEdges (fun i j : Fin 3 => ((i : ℚ) + (j : ℚ))) 0) ∧
      (graphOfEdges (mstEdges (fun i j : Fin 3 => ((i : ℚ) + (j : ℚ))) 0)).IsTree :=
  c5_mst_tree (by norm_num) (fun i j : Fin 3 => ((i : ℚ) + (j : ℚ))) 0

/-! ## Ranking order lemmas -/

lemma rankLE_trans : ∀ a b c : String × ℕ,
    rankLE a b = true → rankLE b c = true → rankLE a c = true := by
  intro a b c hab hbc
  simp only [rankLE, decide_eq_true_eq] at hab hbc ⊢
  rcases hab with h1 | ⟨h1, h2⟩
  · rcases hbc with h3 | ⟨h3, h4⟩
    · exact Or.inl (by omega)
    · exact Or.inl (by omega)
  · rcases hbc with h3 | ⟨h3, h4⟩
    · exact Or.inl (by omega)
    · exact Or.inr ⟨by omega, le_trans h2 h4⟩

lemma rankLE_total : ∀ a b : String × ℕ, (rankLE a b || rankLE b a) = true := by
  intro a b
  simp only [rankLE, Bool.or_eq_true, decide_eq_true_eq]
  rcases lt_trichotomy a.2 b.2 with h | h | h
  · exact Or.inr (Or.inl h)
  · rcases le_total a.1 b.1 with hs | hs
    · exact Or.inl (Or.inr ⟨h, hs⟩)
    · exact Or.inr (Or.inr ⟨h.symm, hs⟩)
  · exact Or.inl (Or.inl h)

lemma rankLE_antisymm : ∀ a b : String × ℕ,
    rankLE a b = true → rankLE b a = true → a = b := by
  intro a b hab hba
  simp only [rankLE, decide_eq_true_eq] at hab hba
  obtain ⟨a1, a2⟩ := a
  obtain ⟨b1, b2⟩ := b
  simp only [Prod.mk.injEq]
  rcases hab with h1 | ⟨h1, h2⟩
  · rcases hba with h3 | ⟨h3, h4⟩
    · exact absurd h1 (by simp only at h3 ⊢; omega)
    · exact absurd h1 (by simp only at h3 ⊢; omega)
  · rcases hba with h3 | ⟨h3, h4⟩
    · exact absurd h3 (by simp only at h1 ⊢; omega)
    · exact ⟨le_antisymm h2 h4, by simp only at h1; omega⟩

/-- The ranking is a function of the scored universe as a set: any two
enumeration orders of the same (ticker, score) pairs sort identically. -/
lemma rankSort_perm_invariant (l1 l2 : List (String × ℕ)) (hp : l1.Perm l2) :
    rankSort l1 = rankSort l2 := by
  have hperm : (rankSort l1).Perm (rankSort l2) :=
    (List.mergeSort_perm l1 _).trans (hp.trans (List.mergeSort_perm l2 _).symm)
  letI : IsAntisymm (String × ℕ) (fun a b => rankLE a b = true) :=
    ⟨rankLE_antisymm⟩
  exact List.eq_of_perm_of_sorted hperm
    (List.sorted_mergeSort rankLE_trans rankLE_total l1)
    (List.sorted_mergeSort rankLE_trans rankLE_total l2)

/-! ## Claim theorems: determinism -/

/-- C6: the pipeline is deterministic — two runs on identical input and
configuration give identical output, and the ranking's tie-breaking by the
fixed total order (score descending, ticker ascending) makes the ranking
independent of the enumeration order of the scored universe. -/
theorem c6_determinism :
    (∀ (pt : List (String × List ℚ)) (k : ℕ),
        runPipeline pt k = runPipeline pt k) ∧
    (∀ l1 l2 : List (String × ℕ), l1.Perm l2 → rankSort l1 = rankSort l2) :=
  ⟨fun _ _ => rfl, rankSort_perm_invariant⟩

/-- C6 witness: two enumeration orders of the same tied-score universe get
the same ranking. -/
theorem c6_witness :
    runPipeline [] 0 = runPipeline [] 0 ∧
      rankSort [(("B"), 1), (("A"), 1)] = rankSort [(("A"), 1), (("B"), 1)] :=
  ⟨c6_determinism.1 [] 0, c6_determinism.2 _ _ (by decide)⟩

end RichGirls
